import Mathlib

/-!
Verification of the SafeChat realtime presence / room-membership core
(server socket layer: `presenceCounts`, `getOnlineUsersPublic`,
`getUniqueUsers`, and the `join` / `disconnect` / `delete_message` /
`edit_message` socket handlers), shallowly embedded from the source.
-/

namespace SafeChat

/-- A stored user record, as created by the auth controller: it carries the
credential field `password` alongside the public fields. -/
structure User where
  uid : String
  username : String
  password : String
  status : String
  deriving Repr, DecidableEq

/-- A public user profile: a user record with the `password` field excluded,
as produced by the `const \x7b password, ...userWithoutPass \x7d = user`
destructuring idiom in the source. -/
structure PublicUser where
  uid : String
  username : String
  status : String
  deriving Repr, DecidableEq

/-- The `const \x7b password, ...userWithoutPass \x7d = user; return userWithoutPass` idiom. -/
def stripPassword (u : User) : PublicUser :=
  { uid := u.uid, username := u.username, status := u.status }

/-- The external user store, treated as a list of records. -/
abbrev UserStore := List User

/-- JSONDB's find-one operation (`db/database.js`, concatenated into
`server/middleware/auth.js`), at the call `db.users.findOne(\x7b _id: userId \x7d)`:
`data.find(item => item._id === query._id)`, the first record whose id
matches, undefined (none) when absent. -/
def findOne (s : UserStore) (id : String) : Option User :=
  s.find? (fun u => u.uid == id)

/-- JSONDB's update operation (`db/database.js`, concatenated into
`server/middleware/auth.js`): `findIndex(item => item._id === id)` and merge
the updated fields into that first matching record only; a no-op returning
null when the id is absent. Specialised to the `status` field, as called by
`db.users.update(id, \x7b status \x7d)`. -/
def updateStatus (s : UserStore) (id : String) (st : String) : UserStore :=
  match s with
  | [] => []
  | u :: us =>
    if u.uid == id then { u with status := st } :: us
    else u :: updateStatus us id st

/-- The process-wide `presenceCounts` map (user id → live-connection count),
modelled as an insertion-ordered association list, matching JS `Map`. -/
abbrev PresenceTable := List (String × Nat)

/-- Map lookup, `presenceCounts.get(k)`. -/
def mget : PresenceTable → String → Option Nat
  | [], _ => none
  | p :: ps, k => if p.1 == k then some p.2 else mget ps k

/-- Map write, `presenceCounts.set(k, v)`: replace in place when the key exists,
append otherwise. -/
def mset : PresenceTable → String → Nat → PresenceTable
  | [], k, v => [(k, v)]
  | p :: ps, k, v => if p.1 == k then (k, v) :: ps else p :: mset ps k v

/-- Map removal, `presenceCounts.delete(k)`. -/
def mdelete : PresenceTable → String → PresenceTable
  | [], _ => []
  | p :: ps, k => if p.1 == k then mdelete ps k else p :: mdelete ps k

/-- The source's `getOnlineUsersPublic()`: ids with count > 0, each resolved in the store
and stripped of `password`; unresolved ids are dropped. -/
def getOnlineUsersPublic (t : PresenceTable) (store : UserStore) : List PublicUser :=
  let userIds := (t.filter (fun p => 0 < p.2)).map (fun p => p.1)
  (userIds.map (fun id => (findOne store id).map stripPassword)).reduceOption

/-- A socket as seen by `io.in(room).fetchSockets()`: only its
`data.user` attribute matters to `getUniqueUsers`. -/
structure RoomSocket where
  user : Option User
  deriving Repr, DecidableEq

/-- JS `Array.prototype.findIndex`. -/
def jsFindIndex (p : User → Bool) : List User → Option Nat
  | [] => none
  | u :: us => if p u then some 0 else (jsFindIndex p us).map (fun i => i + 1)

/-- The `users.filter((user, index, self) => index === self.findIndex(...))`
idiom: keep each element iff its index is the first index carrying its id. -/
def keepFirstAux (self : List User) : Nat → List User → List User
  | _, [] => []
  | i, u :: us =>
    if jsFindIndex (fun t => t.uid == u.uid) self = some i then
      u :: keepFirstAux self (i + 1) us
    else
      keepFirstAux self (i + 1) us

def keepFirst (self : List User) : List User := keepFirstAux self 0 self

/-- The source's `getUniqueUsers(sockets)`: map each socket to `s.data.user`, drop the
unattached ones, then de-duplicate by user id keeping first occurrences.
Note: it returns the full attached user records, not stripped profiles. -/
def getUniqueUsers (sockets : List RoomSocket) : List User :=
  keepFirst ((sockets.map RoomSocket.user).reduceOption)

/-- The per-connection mutable attributes the core touches: `socket.data.user`,
`socket.data.userId`, `socket.data.currentChannel`, and the set of real rooms
the socket is in (its implicit self-room excluded). -/
structure Conn where
  user : Option User := none
  userId : Option String := none
  currentChannel : Option String := none
  rooms : List String := []
  deriving Repr, DecidableEq

/-- The shared server state the handlers mutate. -/
structure ServerState where
  presence : PresenceTable
  store : UserStore
  deriving Repr, DecidableEq

/-- Outcome of one `join` event: the updated shared state, the updated socket
attributes, whether `online_users` was broadcast to all connections, and the
rooms to which a `room_users` recomputation was broadcast. -/
structure JoinResult where
  presence : PresenceTable
  store : UserStore
  sock : Conn
  onlineBroadcast : Bool
  roomBroadcasts : List String
  deriving Repr, DecidableEq

/-- The `socket.on('join', ...)` handler. Mirrors the source line by line:
look up the declared user; if absent do nothing; otherwise set
`socket.data.user`, and when the declared id differs from the previously
attached id, detach the previous id (decrement, delete on reaching 0,
write status offline), attach the new id (increment, write status online on
count 1), and broadcast `online_users`; finally set `currentChannel`, leave
all current rooms (broadcasting `room_users` to each) and join `channelId`
if present (broadcasting `room_users` to it). -/
def joinHandler (st : ServerState) (sock : Conn) (userId : String)
    (channelId : Option String) : JoinResult :=
  match findOne st.store userId with
  | none => ⟨st.presence, st.store, sock, false, []⟩
  | some user =>
    let sock1 : Conn := { sock with user := some user }
    let nextUserId := userId
    let prevUserId := sock.userId
    let step :=
      if prevUserId ≠ some nextUserId then
        let detached : PresenceTable × UserStore :=
          match prevUserId with
          | none => (st.presence, st.store)
          | some prev =>
            let prevCount : Int := ((mget st.presence prev).getD 0 : Nat) - 1
            if prevCount ≤ 0 then
              (mdelete st.presence prev, updateStatus st.store prev "offline")
            else
              (mset st.presence prev prevCount.toNat, st.store)
        let nextCount := (mget detached.1 nextUserId).getD 0 + 1
        let p2 := mset detached.1 nextUserId nextCount
        let s2 := if nextCount = 1 then updateStatus detached.2 nextUserId "online"
                  else detached.2
        (p2, s2, { sock1 with userId := some nextUserId }, true)
      else
        (st.presence, st.store, sock1, false)
    let sock3 : Conn := { step.2.2.1 with currentChannel := channelId }
    let leftRooms := sock3.rooms
    match channelId with
    | some ch =>
      ⟨step.1, step.2.1, { sock3 with rooms := [ch] }, step.2.2.2, leftRooms ++ [ch]⟩
    | none =>
      ⟨step.1, step.2.1, { sock3 with rooms := [] }, step.2.2.2, leftRooms⟩

/-- Outcome of one `disconnect` event. -/
structure DiscResult where
  presence : PresenceTable
  store : UserStore
  onlineBroadcast : Bool
  roomBroadcasts : List String
  deriving Repr, DecidableEq

/-- The `socket.on('disconnect', ...)` handler: when the socket has an
attached `userId`, decrement its count (delete the entry and write status
offline when the decremented count is ≤ 0) and broadcast `online_users`
unconditionally; then, when the socket held a channel, broadcast a
`room_users` recomputation to it after the grace delay. -/
def disconnectHandler (st : ServerState) (sock : Conn) : DiscResult :=
  let core :=
    match sock.userId with
    | some id =>
      let nextCount : Int := ((mget st.presence id).getD 0 : Nat) - 1
      if nextCount ≤ 0 then
        (mdelete st.presence id, updateStatus st.store id "offline", true)
      else
        (mset st.presence id nextCount.toNat, st.store, true)
    | none => (st.presence, st.store, false)
  match sock.currentChannel with
  | some ch => ⟨core.1, core.2.1, core.2.2, [ch]⟩
  | none => ⟨core.1, core.2.1, core.2.2, []⟩

/-! ### Basic lemmas about the presence map operations -/

theorem mget_mset_self (t : PresenceTable) (k : String) (v : Nat) :
    mget (mset t k v) k = some v := by
  induction t with
  | nil => simp [mset, mget]
  | cons p ps ih =>
    by_cases h : p.1 = k
    · simp [mset, h, mget]
    · simp [mset, h, mget, ih]

theorem mget_mset_ne (t : PresenceTable) (k k' : String) (v : Nat) (h : k' ≠ k) :
    mget (mset t k v) k' = mget t k' := by
  have h' : ¬ (k = k') := fun hk => h hk.symm
  induction t with
  | nil => simp [mset, mget, h']
  | cons p ps ih =>
    by_cases hpk : p.1 = k
    · have hp' : ¬ (p.1 = k') := by rw [hpk]; exact h'
      simp [mset, hpk, mget, h', hp']
    · simp [mset, hpk, mget, ih]

theorem mget_mdelete_self (t : PresenceTable) (k : String) :
    mget (mdelete t k) k = none := by
  induction t with
  | nil => simp [mdelete, mget]
  | cons p ps ih =>
    by_cases h : p.1 = k
    · simp [mdelete, h, ih]
    · simp [mdelete, h, mget, ih]

theorem mget_mdelete_ne (t : PresenceTable) (k k' : String) (h : k' ≠ k) :
    mget (mdelete t k) k' = mget t k' := by
  have h' : ¬ (k = k') := fun hk => h hk.symm
  induction t with
  | nil => simp [mdelete]
  | cons p ps ih =>
    by_cases hpk : p.1 = k
    · have hp' : ¬ (p.1 = k') := by rw [hpk]; exact h'
      simp [mdelete, hpk, mget, hp', h', ih]
    · simp [mdelete, hpk, mget, ih]

theorem mdelete_of_mget_none (t : PresenceTable) (k : String) (h : mget t k = none) :
    mdelete t k = t := by
  induction t with
  | nil => simp [mdelete]
  | cons p ps ih =>
    by_cases hpk : p.1 = k
    · simp [mget, hpk] at h
    · simp [mget, hpk] at h
      simp [mdelete, hpk, ih h]

/-- The detach fragment inlined in both handlers: read the count (0 when
absent), subtract 1 in JS integer arithmetic, delete the entry when the
result is ≤ 0, store it back otherwise. -/
def detachT (t : PresenceTable) (uid : String) : PresenceTable :=
  if (((mget t uid).getD 0 : Nat) : Int) - 1 ≤ 0 then mdelete t uid
  else mset t uid ((((mget t uid).getD 0 : Nat) : Int) - 1).toNat

/-- The attach fragment inlined in the join handler: increment the count,
creating the entry at 1 when absent. -/
def attachT (t : PresenceTable) (uid : String) : PresenceTable :=
  mset t uid ((mget t uid).getD 0 + 1)

theorem disconnectHandler_presence (st : ServerState) (sock : Conn) (id : String)
    (h : sock.userId = some id) :
    (disconnectHandler st sock).presence = detachT st.presence id := by
  cases hc : sock.currentChannel <;>
    simp [disconnectHandler, h, hc, detachT, apply_ite Prod.fst]

theorem joinHandler_presence_changed (st : ServerState) (sock : Conn) (uid : String)
    (ch : Option String) (user : User) (prev : String)
    (hf : findOne st.store uid = some user) (hp : sock.userId = some prev)
    (hne : prev ≠ uid) :
    (joinHandler st sock uid ch).presence = attachT (detachT st.presence prev) uid := by
  have h : ¬ (sock.userId = some uid) := by
    rw [hp]
    simp
    exact hne
  cases ch <;>
    simp [joinHandler, hf, hp, h, hne, attachT, detachT, apply_ite Prod.fst]

theorem joinHandler_presence_notfound (st : ServerState) (sock : Conn) (uid : String)
    (ch : Option String) (hf : findOne st.store uid = none) :
    (joinHandler st sock uid ch).presence = st.presence := by
  simp [joinHandler, hf]

theorem joinHandler_presence_same (st : ServerState) (sock : Conn) (uid : String)
    (ch : Option String) (user : User)
    (hp : sock.userId = some uid) (hf : findOne st.store uid = some user) :
    (joinHandler st sock uid ch).presence = st.presence := by
  cases ch <;> simp [joinHandler, hf, hp]

theorem joinHandler_presence_fresh (st : ServerState) (sock : Conn) (uid : String)
    (ch : Option String) (user : User)
    (hf : findOne st.store uid = some user) (hp : sock.userId = none) :
    (joinHandler st sock uid ch).presence = attachT st.presence uid := by
  cases ch <;> simp [joinHandler, hf, hp, attachT]

/-- An abstract socket-layer event: `some (uid, ch)` is a `join` declaring
user `uid` toward channel `ch` on the given socket; `none` is a `disconnect`
of the given socket. -/
abbrev Event := Conn × Option (String × Option String)

def applyEvent (st : ServerState) (e : Event) : ServerState :=
  match e.2 with
  | some (uid, ch) =>
    let r := joinHandler st e.1 uid ch
    ⟨r.presence, r.store⟩
  | none =>
    let r := disconnectHandler st e.1
    ⟨r.presence, r.store⟩

def runEvents (st : ServerState) (evs : List Event) : ServerState :=
  evs.foldl applyEvent st

/-- The table invariant: every stored count is ≥ 1 (absence encodes 0). -/
def goodTable (t : PresenceTable) : Prop := ∀ p ∈ t, 1 ≤ p.2

theorem goodTable_mset (t : PresenceTable) (k : String) (v : Nat)
    (h : goodTable t) (hv : 1 ≤ v) : goodTable (mset t k v) := by
  induction t with
  | nil =>
    intro p hp
    simp [mset] at hp
    simp [hp, hv]
  | cons q qs ih =>
    intro p hp
    by_cases hq : q.1 = k
    · simp [mset, hq] at hp
      rcases hp with hp | hp
      · simp [hp, hv]
      · exact h p (List.mem_cons_of_mem q hp)
    · simp [mset, hq] at hp
      rcases hp with hp | hp
      · exact h p (hp ▸ List.mem_cons_self q qs)
      · exact ih (fun r hr => h r (List.mem_cons_of_mem q hr)) p hp

theorem goodTable_mdelete (t : PresenceTable) (k : String)
    (h : goodTable t) : goodTable (mdelete t k) := by
  induction t with
  | nil =>
    intro p hp
    simp [mdelete] at hp
  | cons q qs ih =>
    intro p hp
    by_cases hq : q.1 = k
    · simp [mdelete, hq] at hp
      exact ih (fun r hr => h r (List.mem_cons_of_mem q hr)) p hp
    · simp [mdelete, hq] at hp
      rcases hp with hp | hp
      · exact h p (hp ▸ List.mem_cons_self q qs)
      · exact ih (fun r hr => h r (List.mem_cons_of_mem q hr)) p hp

theorem goodTable_detachT (t : PresenceTable) (uid : String)
    (h : goodTable t) : goodTable (detachT t uid) := by
  unfold detachT
  split
  · exact goodTable_mdelete t uid h
  · rename_i hgt
    apply goodTable_mset t uid _ h
    omega

theorem detachT_some (t : PresenceTable) (uid : String) (a : Nat)
    (ha : mget t uid = some a) :
    detachT t uid = (if a ≤ 1 then mdelete t uid else mset t uid (a - 1)) := by
  unfold detachT
  rw [ha]
  by_cases h1 : a ≤ 1
  · simp [h1]
  · simp [h1]

theorem detachT_none (t : PresenceTable) (uid : String)
    (ha : mget t uid = none) : detachT t uid = t := by
  unfold detachT
  rw [ha]
  simp
  exact mdelete_of_mget_none t uid ha

theorem goodTable_attachT (t : PresenceTable) (uid : String)
    (h : goodTable t) : goodTable (attachT t uid) := by
  exact goodTable_mset t uid _ h (by omega)

theorem goodTable_joinHandler (st : ServerState) (sock : Conn) (uid : String)
    (ch : Option String) (h : goodTable st.presence) :
    goodTable (joinHandler st sock uid ch).presence := by
  cases hf : findOne st.store uid with
  | none => rw [joinHandler_presence_notfound st sock uid ch hf]; exact h
  | some user =>
    cases hp : sock.userId with
    | none => rw [joinHandler_presence_fresh st sock uid ch user hf hp]
              exact goodTable_attachT _ _ h
    | some prev =>
      by_cases hne : prev = uid
      · subst hne
        rw [joinHandler_presence_same st sock prev ch user hp hf]
        exact h
      · rw [joinHandler_presence_changed st sock uid ch user prev hf hp hne]
        exact goodTable_attachT _ _ (goodTable_detachT _ _ h)

theorem goodTable_disconnectHandler (st : ServerState) (sock : Conn)
    (h : goodTable st.presence) :
    goodTable (disconnectHandler st sock).presence := by
  cases hp : sock.userId with
  | none => cases hc : sock.currentChannel <;>
              simp [disconnectHandler, hp, hc] <;> exact h
  | some id =>
    rw [disconnectHandler_presence st sock id hp]
    exact goodTable_detachT _ _ h

theorem goodTable_runEvents (st : ServerState) (evs : List Event)
    (h : goodTable st.presence) : goodTable (runEvents st evs).presence := by
  induction evs generalizing st with
  | nil => exact h
  | cons e evs ih =>
    show goodTable (runEvents (applyEvent st e) evs).presence
    apply ih
    match e with
    | (sock, some (uid, ch)) => exact goodTable_joinHandler st sock uid ch h
    | (sock, none) => exact goodTable_disconnectHandler st sock h

/-! ### Claim theorems -/

/-- C8: a `join` event whose declared user id is not found in the store is
silently ignored: presence table, store, and all socket attributes (attached
user, attached id, current room, room subscriptions) are unchanged, no
broadcast of any kind is emitted. -/
theorem C8_unknown_user_join_noop (st : ServerState) (sock : Conn) (uid : String)
    (ch : Option String) (h : findOne st.store uid = none) :
    joinHandler st sock uid ch = ⟨st.presence, st.store, sock, false, []⟩ := by
  simp [joinHandler, h]

theorem C8_unknown_user_join_noop_w :
    joinHandler ⟨[], []⟩ {} "ghost" (some "general")
      = ⟨(⟨[], []⟩ : ServerState).presence, (⟨[], []⟩ : ServerState).store, {}, false, []⟩ :=
  C8_unknown_user_join_noop ⟨[], []⟩ {} "ghost" (some "general") rfl

/-- C7: a `join` event re-declaring the user id the connection already holds
(with the user found in the store) leaves the presence table and the user
store (in particular every status field) untouched and emits no
`online_users` broadcast; only the room membership is recomputed
(`room_users` broadcasts to each previously occupied room and to the newly
joined channel). -/
theorem C7_rejoin_same_user (st : ServerState) (sock : Conn) (u : String)
    (ch : Option String) (user : User)
    (h1 : sock.userId = some u) (hfind : findOne st.store u = some user) :
    (joinHandler st sock u ch).presence = st.presence ∧
    (joinHandler st sock u ch).store = st.store ∧
    (joinHandler st sock u ch).onlineBroadcast = false ∧
    (joinHandler st sock u ch).roomBroadcasts = sock.rooms ++ ch.toList := by
  cases ch <;> simp [joinHandler, hfind, h1, Option.toList]

theorem C7_rejoin_same_user_w :
    (joinHandler ⟨[("a", 1)], [⟨"a", "alice", "hashA", "online"⟩]⟩
        ⟨some ⟨"a", "alice", "hashA", "online"⟩, some "a", some "general", ["general"]⟩
        "a" (some "random")).presence = [("a", 1)] ∧
    (joinHandler ⟨[("a", 1)], [⟨"a", "alice", "hashA", "online"⟩]⟩
        ⟨some ⟨"a", "alice", "hashA", "online"⟩, some "a", some "general", ["general"]⟩
        "a" (some "random")).store = [⟨"a", "alice", "hashA", "online"⟩] ∧
    (joinHandler ⟨[("a", 1)], [⟨"a", "alice", "hashA", "online"⟩]⟩
        ⟨some ⟨"a", "alice", "hashA", "online"⟩, some "a", some "general", ["general"]⟩
        "a" (some "random")).onlineBroadcast = false ∧
    (joinHandler ⟨[("a", 1)], [⟨"a", "alice", "hashA", "online"⟩]⟩
        ⟨some ⟨"a", "alice", "hashA", "online"⟩, some "a", some "general", ["general"]⟩
        "a" (some "random")).roomBroadcasts = ["general"] ++ (some "random").toList :=
  C7_rejoin_same_user ⟨[("a", 1)], [⟨"a", "alice", "hashA", "online"⟩]⟩
    ⟨some ⟨"a", "alice", "hashA", "online"⟩, some "a", some "general", ["general"]⟩
    "a" (some "random") ⟨"a", "alice", "hashA", "online"⟩ rfl rfl

/-- The concrete user record used for the C1 analysis: its stored `password`
field holds the credential (a bcrypt hash in the real system). -/
def leakedUser : User := ⟨"u1", "alice", "bcryptHashedSecret", "online"⟩

/-- C1 (code bug): the `room_users` payload is computed by `getUniqueUsers`
from the raw `socket.data.user` records, so it contains the stored `password`
field, contradicting "public user profiles with credential fields excluded".
By contrast the `online_users` path (`getOnlineUsersPublic`) does strip the
password. Concretely: a room holding one connection attached to `leakedUser`
broadcasts the full record, password included. -/
theorem C1_room_users_leaks_password :
    getUniqueUsers [⟨some leakedUser⟩] = [leakedUser] ∧
    leakedUser.password = "bcryptHashedSecret" ∧
    getOnlineUsersPublic [("u1", 1)] [leakedUser] = [stripPassword leakedUser] :=
  ⟨rfl, rfl, rfl⟩

/-- The concrete online user for the C2 counterexample. -/
def c2User : User := ⟨"u1", "alice", "h1", "online"⟩

/-- C2 counterexample: with user `u1` already online at count 1, a fresh
connection joining as `u1` raises the count 1→2 (no 0↔1 transition anywhere:
the table goes from one entry at 1 to that entry at 2, the store is
untouched), yet `online_users` is broadcast to all connections — refuting
"broadcast iff some count made a 0-to-1 or 1-to-0 transition". -/
theorem C2_broadcast_without_transition :
    (joinHandler ⟨[("u1", 1)], [c2User]⟩ {} "u1" none).onlineBroadcast = true ∧
    (joinHandler ⟨[("u1", 1)], [c2User]⟩ {} "u1" none).presence = [("u1", 2)] ∧
    (joinHandler ⟨[("u1", 1)], [c2User]⟩ {} "u1" none).store = [c2User] :=
  ⟨rfl, rfl, rfl⟩

/-- C2 amended: the `online_users` broadcast is emitted exactly when the
event changes the connection's attachment — on a join, iff the declared user
id is found in the store and differs from the previously attached id; on a
disconnect, iff the connection had an attached user id. (Every 0↔1 count
transition therefore triggers a broadcast, but broadcasts also occur without
one.) -/
theorem C2_broadcast_iff_attachment_change (st : ServerState) (sock : Conn)
    (uid : String) (ch : Option String) :
    ((joinHandler st sock uid ch).onlineBroadcast = true
        ↔ ((findOne st.store uid).isSome ∧ sock.userId ≠ some uid)) ∧
    ((disconnectHandler st sock).onlineBroadcast = true ↔ sock.userId.isSome) := by
  constructor
  · cases hf : findOne st.store uid with
    | none => cases ch <;> simp [joinHandler, hf]
    | some user =>
      by_cases h : sock.userId = some uid <;>
        cases ch <;> simp [joinHandler, hf, h]
  · cases h : sock.userId with
    | none => cases hc : sock.currentChannel <;> simp [disconnectHandler, h, hc]
    | some id =>
      cases hc : sock.currentChannel <;>
        simp [disconnectHandler, h, hc] <;> split <;> simp

theorem C2_broadcast_iff_attachment_change_w :
    ((joinHandler ⟨[("u1", 1)], [c2User]⟩ {} "u1" none).onlineBroadcast = true
        ↔ ((findOne (⟨[("u1", 1)], [c2User]⟩ : ServerState).store "u1").isSome
            ∧ ({} : Conn).userId ≠ some "u1")) ∧
    ((disconnectHandler ⟨[("u1", 1)], [c2User]⟩ {}).onlineBroadcast = true
        ↔ ({} : Conn).userId.isSome) :=
  C2_broadcast_iff_attachment_change ⟨[("u1", 1)], [c2User]⟩ {} "u1" none

/-- Concrete state for the C9 analysis: the socket claims user `u1` but the
presence table has no entry for it, and the stored record says `online`. -/
def c9User : User := ⟨"u1", "alice", "h9", "online"⟩

def c9St : ServerState := ⟨[], [c9User]⟩

def c9Sock : Conn := { userId := some "u1" }

/-- C9 counterexample: disconnecting a connection attached to a user with no
presence-table entry does leave the table unchanged, but it is not a pure
no-op: the handler still writes `status: offline` into the user's store
record (here flipping it from `online`) and still broadcasts `online_users`
to all connections. -/
theorem C9_side_effects_cex :
    (disconnectHandler c9St c9Sock).presence = c9St.presence ∧
    (disconnectHandler c9St c9Sock).store ≠ c9St.store ∧
    (disconnectHandler c9St c9Sock).onlineBroadcast = true := by
  refine ⟨rfl, ?_, rfl⟩
  intro h
  have h2 := congrArg (fun s => s.head?.map User.status) h
  simp [disconnectHandler, c9St, c9Sock, mget, mdelete, updateStatus, c9User] at h2

/-- C9 amended: detaching a user id with no presence-table entry leaves the
presence table unchanged (the delete is vacuous), but the disconnect handler
still writes `status: offline` to that user's store record and still
broadcasts `online_users`. -/
theorem C9_detach_absent (st : ServerState) (sock : Conn) (id : String)
    (h1 : sock.userId = some id) (h2 : mget st.presence id = none) :
    (disconnectHandler st sock).presence = st.presence ∧
    (disconnectHandler st sock).store = updateStatus st.store id "offline" ∧
    (disconnectHandler st sock).onlineBroadcast = true := by
  have hd := mdelete_of_mget_none st.presence id h2
  cases hc : sock.currentChannel <;> simp [disconnectHandler, h1, h2, hc, hd]

theorem C9_detach_absent_w :
    (disconnectHandler c9St c9Sock).presence = c9St.presence ∧
    (disconnectHandler c9St c9Sock).store = updateStatus c9St.store "u1" "offline" ∧
    (disconnectHandler c9St c9Sock).onlineBroadcast = true :=
  C9_detach_absent c9St c9Sock "u1" rfl rfl

/-- C3: along every sequence of join/disconnect events started from the
empty table, every presence-table entry has count ≥ 1 (so an id is in the
table iff its count is ≥ 1, absence encoding 0); and whenever a decrement —
at disconnect, or in the detach half of a user switch — takes a count of 1
to 0, the user's entry is removed from the table. -/
theorem C3_presence_table_invariant (store : UserStore) (evs : List Event)
    (st : ServerState) (sock : Conn) (id uid : String) (ch : Option String)
    (user : User) (h1 : sock.userId = some id) :
    goodTable (runEvents ⟨[], store⟩ evs).presence ∧
    (mget st.presence id = some 1 →
      mget (disconnectHandler st sock).presence id = none) ∧
    (id ≠ uid → findOne st.store uid = some user → mget st.presence id = some 1 →
      mget (joinHandler st sock uid ch).presence id = none) := by
  refine ⟨goodTable_runEvents ⟨[], store⟩ evs (by intro p hp; simp at hp), ?_, ?_⟩
  · intro hm
    rw [disconnectHandler_presence st sock id h1, detachT_some st.presence id 1 hm]
    simp [mget_mdelete_self]
  · intro hne hf hm
    rw [joinHandler_presence_changed st sock uid ch user id hf h1 hne]
    unfold attachT
    rw [mget_mset_ne _ uid id _ hne]
    rw [detachT_some st.presence id 1 hm]
    simp [mget_mdelete_self]

def c3User : User := ⟨"u2", "bob", "h3", "offline"⟩

theorem C3_presence_table_invariant_w :
    goodTable (runEvents ⟨[], [c3User]⟩
        [(({} : Conn), some ("u2", none)),
         ((⟨none, some "u2", none, []⟩ : Conn), none)]).presence ∧
    mget (disconnectHandler ⟨[("u1", 1)], [c3User]⟩
        ⟨none, some "u1", none, []⟩).presence "u1" = none ∧
    mget (joinHandler ⟨[("u1", 1)], [c3User]⟩
        ⟨none, some "u1", none, []⟩ "u2" none).presence "u1" = none := by
  have h := C3_presence_table_invariant [c3User]
    [(({} : Conn), some ("u2", none)), ((⟨none, some "u2", none, []⟩ : Conn), none)]
    ⟨[("u1", 1)], [c3User]⟩ ⟨none, some "u1", none, []⟩ "u1" "u2" none c3User rfl
  exact ⟨h.1, h.2.1 rfl, h.2.2 (by decide) rfl rfl⟩

/-- C6: a join switching the connection from user A to a different user B
(found in the store) decrements A's count exactly once (removing A's entry
when the decremented count reaches 0), increments B's count exactly once
(creating the entry at 1 when absent), and changes no other entry of the
presence table — all within the handling of that single event. -/
theorem C6_user_switch (st : ServerState) (sock : Conn) (A B : String)
    (ch : Option String) (user : User) (a : Nat)
    (hA : sock.userId = some A) (hne : A ≠ B)
    (hfind : findOne st.store B = some user) (ha : mget st.presence A = some a) :
    mget (joinHandler st sock B ch).presence B
      = some ((mget st.presence B).getD 0 + 1) ∧
    mget (joinHandler st sock B ch).presence A
      = (if a ≤ 1 then none else some (a - 1)) ∧
    (∀ k, k ≠ A → k ≠ B →
      mget (joinHandler st sock B ch).presence k = mget st.presence k) := by
  rw [joinHandler_presence_changed st sock B ch user A hfind hA hne]
  have hdA : mget (detachT st.presence A) B = mget st.presence B := by
    rw [detachT_some st.presence A a ha]
    by_cases h1 : a ≤ 1 <;>
      simp [h1, mget_mdelete_ne _ A B (Ne.symm hne), mget_mset_ne _ A B _ (Ne.symm hne)]
  refine ⟨?_, ?_, ?_⟩
  · unfold attachT
    rw [mget_mset_self, hdA]
  · unfold attachT
    rw [mget_mset_ne _ B A _ hne]
    rw [detachT_some st.presence A a ha]
    by_cases h1 : a ≤ 1
    · simp [h1, mget_mdelete_self]
    · simp [h1, mget_mset_self]
  · intro k hkA hkB
    unfold attachT
    rw [mget_mset_ne _ B k _ hkB]
    rw [detachT_some st.presence A a ha]
    by_cases h1 : a ≤ 1 <;>
      simp [h1, mget_mdelete_ne _ A k hkA, mget_mset_ne _ A k _ hkA]

def c6User : User := ⟨"b", "bob", "h6", "offline"⟩

theorem C6_user_switch_w :
    mget (joinHandler ⟨[("a", 2), ("c", 5)], [c6User]⟩
        ⟨none, some "a", none, []⟩ "b" none).presence "b"
      = some ((mget ([("a", 2), ("c", 5)] : PresenceTable) "b").getD 0 + 1) ∧
    mget (joinHandler ⟨[("a", 2), ("c", 5)], [c6User]⟩
        ⟨none, some "a", none, []⟩ "b" none).presence "a"
      = (if 2 ≤ 1 then none else some (2 - 1)) ∧
    mget (joinHandler ⟨[("a", 2), ("c", 5)], [c6User]⟩
        ⟨none, some "a", none, []⟩ "b" none).presence "c"
      = mget ([("a", 2), ("c", 5)] : PresenceTable) "c" := by
  have h := C6_user_switch ⟨[("a", 2), ("c", 5)], [c6User]⟩
    ⟨none, some "a", none, []⟩ "a" "b" none c6User 2 rfl (by decide) rfl rfl
  exact ⟨h.1, h.2.1, h.2.2 "c" (by decide) (by decide)⟩

/-- A sequence of tracker-level operations on a fixed user id, applied to the
presence table: `true` is an attach (a join incrementing the user's count),
`false` a detach (a disconnect, or the detach half of a user switch,
decrementing it). -/
def runOps (t : PresenceTable) (u : String) (ops : List Bool) : PresenceTable :=
  ops.foldl (fun t b => if b then attachT t u else detachT t u) t

/-- The count the code actually maintains: a left fold over the sequence that
clamps at 0 at each individual detach (a detach at count 0 is a no-op). -/
def specCountFrom (c : Nat) (ops : List Bool) : Nat :=
  ops.foldl (fun c b => if b then c + 1 else c - 1) c

theorem runOps_closed_form (u : String) (ops : List Bool) (c : Nat) :
    runOps (if c = 0 then [] else [(u, c)]) u ops
      = (if specCountFrom c ops = 0 then []
         else [(u, specCountFrom c ops)]) := by
  induction ops generalizing c with
  | nil => simp [runOps, specCountFrom]
  | cons b ops ih =>
    have hstep : (if b then attachT (if c = 0 then [] else [(u, c)]) u
        else detachT (if c = 0 then [] else [(u, c)]) u)
        = (if (if b then c + 1 else c - 1) = 0 then []
           else [(u, if b then c + 1 else c - 1)]) := by
      cases b
      · by_cases hc : c = 0
        · subst hc
          rw [if_pos rfl, detachT_none [] u rfl]
          simp
        · rw [if_neg hc]
          have hm : mget [(u, c)] u = some c := by simp [mget]
          rw [detachT_some [(u, c)] u c hm]
          by_cases hc1 : c ≤ 1
          · have hz : c - 1 = 0 := by omega
            simp [hc1, mdelete, hz]
          · have hz : ¬ (c - 1 = 0) := by omega
            simp [hc1, mset, hz]
      · by_cases hc : c = 0
        · subst hc
          simp [attachT, mget, mset]
        · simp [hc, attachT, mget, mset]
    rw [show runOps (if c = 0 then [] else [(u, c)]) u (b :: ops)
          = runOps (if b then attachT (if c = 0 then [] else [(u, c)]) u
                    else detachT (if c = 0 then [] else [(u, c)]) u) u ops from rfl]
    rw [show specCountFrom c (b :: ops)
          = specCountFrom (if b then c + 1 else c - 1) ops from rfl]
    rw [hstep]
    exact ih (if b then c + 1 else c - 1)

/-- C4 counterexample: for the operation sequence attach, detach, detach,
attach (2 attaches, 2 detaches), the claimed formula gives a count of
max(2 − 2, 0) = 0, but the code's per-operation clamping (the second detach
hits an absent entry and is a no-op) leaves the count at 1. -/
theorem C4_clamped_formula_cex :
    mget (runOps [] "u1" [true, false, false, true]) "u1" = some 1 ∧
    [true, false, false, true].count true = 2 ∧
    [true, false, false, true].count false = 2 := by
  decide

/-- C4 amended: for every sequence of attach/detach operations on a user id
(starting from the empty table), the presence count equals the left fold of
the sequence in which each attach adds 1 and each detach subtracts 1
clamping at 0 at that step (so it equals #attaches − #detaches whenever no
prefix has more detaches than attaches, but not in general); the entry is
absent exactly when that count is 0; and, provided the user's record exists
in the store, the user appears in the emitted online list iff the count
is > 0. -/
theorem C4_count_fold_and_online (store : UserStore) (u : String) (user : User)
    (ops : List Bool) (hfind : findOne store u = some user) :
    mget (runOps [] u ops) u
      = (if specCountFrom 0 ops = 0 then none else some (specCountFrom 0 ops)) ∧
    (u ∈ (getOnlineUsersPublic (runOps [] u ops) store).map PublicUser.uid
      ↔ 0 < specCountFrom 0 ops) := by
  have hc := runOps_closed_form u ops 0
  rw [if_pos rfl] at hc
  rw [hc]
  have huid : user.uid = u := by
    simp only [findOne] at hfind
    have h2 := List.find?_some hfind
    simpa using h2
  by_cases h0 : specCountFrom 0 ops = 0
  · simp [h0, mget, getOnlineUsersPublic]
  · have hpos : 0 < specCountFrom 0 ops := Nat.pos_of_ne_zero h0
    simp [h0, mget, getOnlineUsersPublic, hpos, hfind, stripPassword, huid]

def c4User : User := ⟨"u1", "alice", "h4", "online"⟩

theorem C4_count_fold_and_online_w :
    mget (runOps [] "u1" [true, true, false]) "u1"
      = (if specCountFrom 0 [true, true, false] = 0 then none
         else some (specCountFrom 0 [true, true, false])) ∧
    ("u1" ∈ (getOnlineUsersPublic (runOps [] "u1" [true, true, false])
        [c4User]).map PublicUser.uid
      ↔ 0 < specCountFrom 0 [true, true, false]) :=
  C4_count_fold_and_online [c4User] "u1" c4User [true, true, false] rfl

/-! ### De-duplication lemmas for `getUniqueUsers` -/

theorem find?_eq_jsFindIndex (p : User → Bool) (l : List User) :
    l.find? p = (jsFindIndex p l).bind l.get? := by
  induction l with
  | nil => rfl
  | cons u us ih =>
    by_cases h : p u
    · simp [jsFindIndex, h, List.find?_cons_of_pos]
    · rw [List.find?_cons_of_neg _ (by simp [h]), ih]
      simp [jsFindIndex, h]
      cases jsFindIndex p us <;> simp

theorem mem_keepFirstAux_found (self l : List User) (i : Nat) (u : User)
    (hmem : u ∈ keepFirstAux self i l) :
    ∃ j, i ≤ j ∧ jsFindIndex (fun t => t.uid == u.uid) self = some j := by
  induction l generalizing i with
  | nil => simp [keepFirstAux] at hmem
  | cons v vs ih =>
    by_cases hv : jsFindIndex (fun t => t.uid == v.uid) self = some i
    · rw [keepFirstAux, if_pos hv] at hmem
      rcases List.mem_cons.mp hmem with h | h
      · exact ⟨i, le_refl i, h ▸ hv⟩
      · obtain ⟨j, hij, hj⟩ := ih (i + 1) h
        exact ⟨j, by omega, hj⟩
    · rw [keepFirstAux, if_neg hv] at hmem
      obtain ⟨j, hij, hj⟩ := ih (i + 1) hmem
      exact ⟨j, by omega, hj⟩

theorem mem_keepFirstAux_first (self l : List User) (i : Nat) (u : User)
    (halign : ∀ k, l.get? k = self.get? (i + k))
    (hmem : u ∈ keepFirstAux self i l) :
    self.find? (fun t => t.uid == u.uid) = some u := by
  induction l generalizing i with
  | nil => simp [keepFirstAux] at hmem
  | cons v vs ih =>
    have halign' : ∀ k, vs.get? k = self.get? (i + 1 + k) := by
      intro k
      have h := halign (k + 1)
      have harith : i + (k + 1) = i + 1 + k := by omega
      rw [harith] at h
      exact h
    by_cases hv : jsFindIndex (fun t => t.uid == v.uid) self = some i
    · rw [keepFirstAux, if_pos hv] at hmem
      rcases List.mem_cons.mp hmem with h | h
      · subst h
        rw [find?_eq_jsFindIndex, hv, Option.some_bind]
        have h0 := halign 0
        simpa using h0.symm
      · exact ih (i + 1) halign' h
    · rw [keepFirstAux, if_neg hv] at hmem
      exact ih (i + 1) halign' hmem

theorem keepFirstAux_pairwise_uid (self l : List User) (i : Nat) :
    (keepFirstAux self i l).Pairwise (fun a b => a.uid ≠ b.uid) := by
  induction l generalizing i with
  | nil => simp [keepFirstAux]
  | cons v vs ih =>
    by_cases hv : jsFindIndex (fun t => t.uid == v.uid) self = some i
    · rw [keepFirstAux, if_pos hv]
      refine List.Pairwise.cons ?_ (ih (i + 1))
      intro b hb heq
      obtain ⟨j, hij, hj⟩ := mem_keepFirstAux_found self vs (i + 1) b hb
      rw [← heq] at hj
      rw [hv] at hj
      have : i = j := Option.some.inj hj
      omega
    · rw [keepFirstAux, if_neg hv]
      exact ih (i + 1)

/-- C5: a `room_users` payload computed by `getUniqueUsers` from any list of
connections never contains two entries with the same user id, and each entry
is exactly the first-seen attached profile carrying its id (first occurrence
in socket order wins). -/
theorem C5_room_users_dedup (sockets : List RoomSocket) :
    ((getUniqueUsers sockets).map User.uid).Nodup ∧
    (∀ u ∈ getUniqueUsers sockets,
      ((sockets.map RoomSocket.user).reduceOption).find? (fun t => t.uid == u.uid)
        = some u) := by
  constructor
  · exact List.Pairwise.map User.uid (fun a b h => h)
      (keepFirstAux_pairwise_uid _ _ 0)
  · intro u hu
    exact mem_keepFirstAux_first _ _ 0 u (fun k => by simp) hu

def c5Dup : User := ⟨"u1", "alice-first", "h5a", "online"⟩

def c5Dup2 : User := ⟨"u1", "alice-second", "h5b", "online"⟩

def c5Other : User := ⟨"u2", "bob", "h5c", "online"⟩

theorem C5_room_users_dedup_w :
    ((getUniqueUsers [⟨some c5Dup⟩, ⟨none⟩, ⟨some c5Dup2⟩, ⟨some c5Other⟩]).map
        User.uid).Nodup ∧
    (([⟨some c5Dup⟩, ⟨none⟩, ⟨some c5Dup2⟩,
        (⟨some c5Other⟩ : RoomSocket)].map RoomSocket.user).reduceOption).find?
        (fun t => t.uid == c5Dup.uid) = some c5Dup := by
  have h := C5_room_users_dedup [⟨some c5Dup⟩, ⟨none⟩, ⟨some c5Dup2⟩, ⟨some c5Other⟩]
  exact ⟨h.1, h.2 c5Dup (by decide)⟩

/-! ### Message store and the delete/edit handlers -/

/-- A stored chat message (the fields the delete/edit handlers touch). -/
structure Message where
  mid : String
  text : String
  userId : String
  channelId : String
  isEdited : Bool
  deriving Repr, DecidableEq

abbrev MessageStore := List Message

/-- JSONDB's find-one operation on the messages store
(`db.messages.findOne(\x7b _id: msgId \x7d)`): the first record whose id
matches. -/
def findMsg (ms : MessageStore) (id : String) : Option Message :=
  ms.find? (fun m => m.mid == id)

/-- JSONDB's delete operation (`db.messages.delete(msgId)`):
`data.filter(item => item._id !== id)`. -/
def deleteMsg (ms : MessageStore) (id : String) : MessageStore :=
  ms.filter (fun m => m.mid != id)

/-- JSONDB's update operation on the messages store, at the call
`db.messages.update(msgId, \x7b text: newText, isEdited: true \x7d)`: merge the
updated fields into the first matching record only, no-op when absent. -/
def updateMsgText (ms : MessageStore) (id : String) (t : String) : MessageStore :=
  match ms with
  | [] => []
  | m :: rest =>
    if m.mid == id then { m with text := t, isEdited := true } :: rest
    else m :: updateMsgText rest id t

/-- Outcome of a delete/edit event: the message store plus the emitted
events as (event name, target room) pairs. -/
structure MsgResult where
  msgs : MessageStore
  emitted : List (String × String)
  deriving Repr, DecidableEq

/-- The `socket.on('delete_message')` handler: guarded by
`msg && socket.data.user && (socket.data.user._id === msg.userId)`;
on success deletes the message and emits `message_deleted` to its channel,
otherwise changes nothing and emits nothing. -/
def deleteMessageHandler (ms : MessageStore) (sockUser : Option User)
    (msgId : String) : MsgResult :=
  match findMsg ms msgId, sockUser with
  | some msg, some u =>
    if u.uid = msg.userId then
      ⟨deleteMsg ms msgId, [("message_deleted", msg.channelId)]⟩
    else ⟨ms, []⟩
  | _, _ => ⟨ms, []⟩

/-- The `socket.on('edit_message')` handler: same guard; on success updates the text,
marks it edited, and emits `message_updated` to the message's channel. -/
def editMessageHandler (ms : MessageStore) (sockUser : Option User)
    (msgId newText : String) : MsgResult :=
  match findMsg ms msgId, sockUser with
  | some msg, some u =>
    if u.uid = msg.userId then
      ⟨updateMsgText ms msgId newText, [("message_updated", msg.channelId)]⟩
    else ⟨ms, []⟩
  | _, _ => ⟨ms, []⟩

/-- The authorization guard of both handlers. -/
def canModify (ms : MessageStore) (su : Option User) (mid : String) : Bool :=
  match findMsg ms mid, su with
  | some m, some u => u.uid == m.userId
  | _, _ => false

/-- C10: delete_message / edit_message modify the store and emit an event
only when the message exists, a user is attached, and that user's id equals
the message's `userId`; for any other requester the store is unchanged and
nothing is emitted. -/
theorem C10_owner_only_modification (ms : MessageStore) (su : Option User)
    (mid newText : String) :
    (canModify ms su mid = false →
      deleteMessageHandler ms su mid = ⟨ms, []⟩ ∧
      editMessageHandler ms su mid newText = ⟨ms, []⟩) ∧
    (canModify ms su mid = true →
      ∃ msg, findMsg ms mid = some msg ∧ ∃ u, su = some u ∧ u.uid = msg.userId ∧
        deleteMessageHandler ms su mid
          = ⟨deleteMsg ms mid, [("message_deleted", msg.channelId)]⟩ ∧
        editMessageHandler ms su mid newText
          = ⟨updateMsgText ms mid newText, [("message_updated", msg.channelId)]⟩) := by
  cases hf : findMsg ms mid with
  | none =>
    cases su <;>
      simp [canModify, deleteMessageHandler, editMessageHandler, hf]
  | some msg =>
    cases su with
    | none => simp [canModify, deleteMessageHandler, editMessageHandler, hf]
    | some u =>
      by_cases hid : u.uid = msg.userId <;>
        simp [canModify, deleteMessageHandler, editMessageHandler, hf, hid]

def c10Owner : User := ⟨"u1", "alice", "h10", "online"⟩

def c10Other : User := ⟨"u2", "eve", "h10b", "online"⟩

def c10Msg : Message := ⟨"m1", "hello", "u1", "general", false⟩

theorem C10_owner_only_modification_w :
    (deleteMessageHandler [c10Msg] (some c10Other) "m1" = ⟨[c10Msg], []⟩ ∧
     editMessageHandler [c10Msg] (some c10Other) "m1" "x" = ⟨[c10Msg], []⟩) ∧
    (∃ msg, findMsg [c10Msg] "m1" = some msg ∧
      ∃ u, (some c10Owner : Option User) = some u ∧ u.uid = msg.userId ∧
        deleteMessageHandler [c10Msg] (some c10Owner) "m1"
          = ⟨deleteMsg [c10Msg] "m1", [("message_deleted", msg.channelId)]⟩ ∧
        editMessageHandler [c10Msg] (some c10Owner) "m1" "x"
          = ⟨updateMsgText [c10Msg] "m1" "x", [("message_updated", msg.channelId)]⟩) :=
  ⟨(C10_owner_only_modification [c10Msg] (some c10Other) "m1" "x").1 (by decide),
   (C10_owner_only_modification [c10Msg] (some c10Owner) "m1" "x").2 (by decide)⟩

end SafeChat
